import Mathlib

/-!
Shallow embedding of the document preview & annotation engine of
`src/components/ClientIntakeForm.tsx` (the ClientIntakeForm React component).

Modelling conventions:
- JS numbers are modelled as `ℚ` (coordinates, zoom) or `ℤ` (timestamps);
  all arithmetic in the embedded fragment is exact, so no floating-point
  subtleties arise in the claims under study.
- React `useState` cells are gathered into one record, `FormState`; each event
  handler becomes a pure function `FormState → FormState` (the source performs
  all its `setX` calls synchronously within one handler, which is exactly
  sequential record update).
- JS `Set` objects are modelled as duplicate-free lists in insertion order
  (`slInsert` / `slErase` / `slFromList` mirror `add` / `delete` / `new Set(xs)`).
- `Math.random().toString(36).substr(2, 9)` and `Date.now()` are external
  sources of values; handlers that consume them take the produced id / time
  as an explicit argument.
- JS string falsiness (`!s`) is emptiness; `null` is `Option.none`.
- `String.prototype.localeCompare` is modelled as the lexicographic
  three-way comparison derived from the linear order on `String`.
- `Array.prototype.sort` (stable since ES2019) is modelled by a stable
  insertion sort `insSort` over the boolean relation `comparator ≤ 0`.
-/

/-- The three annotation tool variants from `src/types.ts` (`AnnotationType`). -/
inductive AnnotType where
  | pin
  | rect
  | arrow
deriving DecidableEq, Repr

/-- One positional markup record, from `src/types.ts` (`Annotation`):
id, variant tag, anchor x/y, optional width/height (rect), optional
endX/endY (arrow), text, author, createdAt. -/
structure Annot where
  id : String
  type : AnnotType
  x : ℚ
  y : ℚ
  width : Option ℚ
  height : Option ℚ
  endX : Option ℚ
  endY : Option ℚ
  text : String
  author : String
  createdAt : ℤ
deriving DecidableEq, Repr

/-- One uploaded/captured file, from `src/types.ts` (`AttachedDocument`).
The `annotations` field is optional in the source (`annotations?: Annotation[]`),
hence `Option (List Annot)` here. -/
structure AttachedDocument where
  name : String
  type : String
  size : ℤ
  data : String
  uploadedAt : ℤ
  expiresAt : ℤ
  annots : Option (List Annot)
deriving DecidableEq, Repr

/-- The source reads a document's annotation list as `(doc.annotations || [])`. -/
def annotsOf (d : AttachedDocument) : List Annot :=
  d.annots.getD []

/-- Sort criteria of the document list (`type SortCriterion`). -/
inductive SortCriterion where
  | name
  | date
  | expiry
deriving DecidableEq, Repr

/-- Sort directions of the document list (`type SortDirection`). -/
inductive SortDirection where
  | asc
  | desc
deriving DecidableEq, Repr

/-- JS `Set.add`: append iff not already present (insertion order preserved). -/
def slInsert (x : ℤ) (l : List ℤ) : List ℤ :=
  if x ∈ l then l else l ++ [x]

/-- JS `Set.delete`: remove the element. -/
def slErase (x : ℤ) (l : List ℤ) : List ℤ :=
  l.filter (fun y => y != x)

/-- JS `new Set(xs)` for a list of numbers: left fold of `add`. -/
def slFromList (xs : List ℤ) : List ℤ :=
  xs.foldl (fun acc x => slInsert x acc) []

/-- String-keyed JS `Set.add` (used for the collapsed-annotation id set). -/
def ssInsert (x : String) (l : List String) : List String :=
  if x ∈ l then l else l ++ [x]

/-- String-keyed JS `Set.delete`. -/
def ssErase (x : String) (l : List String) : List String :=
  l.filter (fun y => y != x)

/-- The in-progress drawing object `currentDraw` of the source, an object
literal with optional `w`, `h` (rect preview) and `ex`, `ey` (arrow preview). -/
structure DrawBox where
  x : ℚ
  y : ℚ
  w : Option ℚ
  h : Option ℚ
  ex : Option ℚ
  ey : Option ℚ
deriving DecidableEq, Repr

/-- The `useState` cells of `ClientIntakeForm` that the annotation, sorting,
bulk-action and viewport claims depend on, gathered into one record. -/
structure FormState where
  documents : List AttachedDocument
  previewDoc : Option AttachedDocument
  activeTool : Option AnnotType
  activeAnnotId : Option String
  annotText : String
  collapsedAnnots : List String
  isDrawing : Bool
  drawStart : ℚ × ℚ
  currentDraw : Option DrawBox
  isDraggingImage : Bool
  dragStartPos : ℚ × ℚ
  pan : ℚ × ℚ
  zoom : ℚ
  rotation : ℤ
  sortCriterion : SortCriterion
  sortDirection : SortDirection
  searchTerm : String
  selectedDocTimestamps : List ℤ
  bulkAnnotText : String
  isBulkMode : Bool
  isApplyingBulk : Bool
  fullName : String
deriving DecidableEq

/-- The initial values of the `useState` cells relevant here. -/
def initialState : FormState where
  documents := []
  previewDoc := none
  activeTool := none
  activeAnnotId := none
  annotText := ""
  collapsedAnnots := []
  isDrawing := false
  drawStart := (0, 0)
  currentDraw := none
  isDraggingImage := false
  dragStartPos := (0, 0)
  pan := (0, 0)
  zoom := 1
  rotation := 0
  sortCriterion := SortCriterion.date
  sortDirection := SortDirection.desc
  searchTerm := ""
  selectedDocTimestamps := []
  bulkAnnotText := ""
  isBulkMode := false
  isApplyingBulk := false
  fullName := ""

/-- The source computes the author of a new annotation as
`formData.fullName || 'User'` (JS falsiness: empty string falls back). -/
def authorOf (s : FormState) : String :=
  if s.fullName = "" then "User" else s.fullName

/-- Source lines 431 to 448, `addAnnotation(ann)`: if a document is previewed,
append `ann` to its annotation list, write the updated record both into
`previewDoc` and into every `documents` entry with the same `uploadedAt`,
make `ann` the active annotation, clear the draft buffer, and un-collapse it. -/
def addAnnot (ann : Annot) (s : FormState) : FormState :=
  match s.previewDoc with
  | none => s
  | some pd =>
    let updatedDoc := { pd with annots := some (annotsOf pd ++ [ann]) }
    { s with
      previewDoc := some updatedDoc
      documents := s.documents.map
        (fun d => if d.uploadedAt = pd.uploadedAt then updatedDoc else d)
      activeAnnotId := some ann.id
      annotText := ""
      collapsedAnnots := ssErase ann.id s.collapsedAnnots }

/-- Source lines 469 to 490, `saveAnnotationText()`: guarded by
`!activeAnnotationId || !previewDoc`; writes the draft buffer into the active
annotation's text in both the preview record and the collection, collapses it,
and clears the active selection and the draft. -/
def saveAnnotText (s : FormState) : FormState :=
  match s.activeAnnotId, s.previewDoc with
  | some cid, some pd =>
    if cid = "" then s
    else
      let newAnns := (annotsOf pd).map
        (fun a => if a.id = cid then { a with text := s.annotText } else a)
      let updatedDoc := { pd with annots := some newAnns }
      { s with
        previewDoc := some updatedDoc
        documents := s.documents.map
          (fun d => if d.uploadedAt = pd.uploadedAt then updatedDoc else d)
        collapsedAnnots := ssInsert cid s.collapsedAnnots
        activeAnnotId := none
        annotText := "" }
  | _, _ => s

/-- Source lines 512 to 525, `deleteAnnotation(id)`: guarded by `!previewDoc`;
filters the annotation out of both the preview record and the collection, and
clears the active selection iff it pointed at the removed id. -/
def deleteAnnot (id : String) (s : FormState) : FormState :=
  match s.previewDoc with
  | none => s
  | some pd =>
    let remaining := (annotsOf pd).filter (fun a => a.id != id)
    let updatedDoc := { pd with annots := some remaining }
    let s1 := { s with
      previewDoc := some updatedDoc
      documents := s.documents.map
        (fun d => if d.uploadedAt = pd.uploadedAt then updatedDoc else d) }
    if s.activeAnnotId = some id then
      { s1 with activeAnnotId := none, annotText := "" }
    else s1

/-- Source lines 492 to 510, `cancelAnnotationEdit()`: guarded by
`!activeAnnotationId || !previewDoc`; looks the active annotation up, and if it
exists with empty stored text while the draft buffer is also empty, deletes it;
otherwise collapses it and clears the active selection and the draft. -/
def cancelAnnotEdit (s : FormState) : FormState :=
  match s.activeAnnotId, s.previewDoc with
  | some aid, some pd =>
    if aid = "" then s
    else
      match (annotsOf pd).find? (fun a => a.id == aid) with
      | some currentAnn =>
        if currentAnn.text = "" ∧ s.annotText = "" then
          deleteAnnot aid s
        else
          { s with
            collapsedAnnots := ssInsert aid s.collapsedAnnots
            activeAnnotId := none
            annotText := "" }
      | none =>
        { s with
          collapsedAnnots := ssInsert aid s.collapsedAnnots
          activeAnnotId := none
          annotText := "" }
  | _, _ => s

/-- Client coordinates of a pointer event. -/
structure MouseEvt where
  clientX : ℚ
  clientY : ℚ
deriving DecidableEq, Repr

/-- The bounding client rectangle of the rendered document element
(`docElementRef.current.getBoundingClientRect()`); the handlers receive
`none` when the element is not mounted. -/
structure DOMRect where
  left : ℚ
  top : ℚ
  width : ℚ
  height : ℚ
deriving DecidableEq, Repr

/-- Geometry engine: `((e.clientX - rect.left) / rect.width) * 100` and the
same for y, converting client pixels into document-relative percentages. -/
def pctCoords (e : MouseEvt) (r : DOMRect) : ℚ × ℚ :=
  (((e.clientX - r.left) / r.width) * 100, ((e.clientY - r.top) / r.height) * 100)

/-- Source lines 336 to 366, `handleMouseDownOnDoc`: with no armed tool or no
mounted document element, possibly begin a pan drag (only when zoomed or
rotated); with the pin tool, immediately create a pin annotation (fresh id and
current time supplied by the environment) and disarm the tool; with rect or
arrow, start a draw whose `currentDraw` holds only the start coordinates. -/
def handleMouseDownOnDoc (e : MouseEvt) (docRect : Option DOMRect)
    (freshId : String) (now : ℤ) (s : FormState) : FormState :=
  match s.activeTool, docRect with
  | some tool, some r =>
    let x := (pctCoords e r).1
    let y := (pctCoords e r).2
    match tool with
    | AnnotType.pin =>
      let newAnn : Annot :=
        ⟨freshId, AnnotType.pin, x, y, none, none, none, none, "", authorOf s, now⟩
      { addAnnot newAnn s with activeTool := none }
    | _ =>
      { s with isDrawing := true, drawStart := (x, y),
               currentDraw := some ⟨x, y, none, none, none, none⟩ }
  | _, _ =>
    if s.zoom > 1 ∨ s.rotation ≠ 0 then
      { s with isDraggingImage := true,
               dragStartPos := (e.clientX - s.pan.1, e.clientY - s.pan.2) }
    else s

/-- Source lines 368 to 398, `handleMouseMoveOnDoc`: while pan-dragging, move
the pan offset; while drawing with the rect tool, normalize the live preview
to min corner plus absolute width/height; with the arrow tool, keep the start
point and record the current endpoint. -/
def handleMouseMoveOnDoc (e : MouseEvt) (docRect : Option DOMRect)
    (s : FormState) : FormState :=
  if s.isDraggingImage then
    { s with pan := (e.clientX - s.dragStartPos.1, e.clientY - s.dragStartPos.2) }
  else
    match s.isDrawing, docRect, s.activeTool with
    | true, some r, some tool =>
      let x := (pctCoords e r).1
      let y := (pctCoords e r).2
      match tool with
      | AnnotType.rect =>
        { s with currentDraw := some ⟨min s.drawStart.1 x, min s.drawStart.2 y,
            some (abs (x - s.drawStart.1)), some (abs (y - s.drawStart.2)),
            none, none⟩ }
      | AnnotType.arrow =>
        { s with currentDraw := some ⟨s.drawStart.1, s.drawStart.2,
            none, none, some x, some y⟩ }
      | AnnotType.pin => s
    | _, _, _ => s

/-- Source lines 400 to 429, `handleMouseUpOnDoc`: end a pan drag; otherwise,
if a draw is in progress with a live preview and an armed tool, finalize the
preview geometry into a new annotation (fresh id and current time supplied by
the environment), add it, and reset the draw state; else just clear the
drawing flag. -/
def handleMouseUpOnDoc (freshId : String) (now : ℤ) (s : FormState) : FormState :=
  if s.isDraggingImage then
    { s with isDraggingImage := false }
  else
    match s.isDrawing, s.currentDraw, s.activeTool with
    | true, some cd, some tool =>
      let newAnn : Annot :=
        ⟨freshId, tool, cd.x, cd.y, cd.w, cd.h, cd.ex, cd.ey, "", authorOf s, now⟩
      { addAnnot newAnn s with isDrawing := false, currentDraw := none,
                               activeTool := none }
    | _, _, _ => { s with isDrawing := false }

/-- Prefix test on character lists, for the substring check below. -/
def isPrefB : List Char → List Char → Bool
  | [], _ => true
  | _ :: _, [] => false
  | a :: as, b :: bs => a = b && isPrefB as bs

/-- Substring containment on character lists: the needle occurs somewhere. -/
def hasSubB (needle : List Char) : List Char → Bool
  | [] => needle.isEmpty
  | c :: rest => isPrefB needle (c :: rest) || hasSubB needle rest

/-- JS `hay.includes(needle)` for strings. -/
def strContains (hay needle : String) : Bool :=
  hasSubB needle.data hay.data

/-- Lexicographic three-way comparison of character lists by code point. -/
def lexCmp : List Char → List Char → ℤ
  | [], [] => 0
  | [], _ :: _ => -1
  | _ :: _, [] => 1
  | a :: as, b :: bs =>
    if a < b then -1 else if b < a then 1 else lexCmp as bs

/-- Model of `a.localeCompare(b)`: lexicographic three-way comparison of the
two strings by code point (structural, kernel-computable). -/
def strCmp (a b : String) : ℤ :=
  lexCmp a.data b.data

/-- The per-criterion comparison of source lines 530 to 534: `name` compares
names, `expiry` subtracts `expiresAt`, `date` subtracts `uploadedAt`. -/
def docCmp (c : SortCriterion) (a b : AttachedDocument) : ℤ :=
  match c with
  | SortCriterion.name => strCmp a.name b.name
  | SortCriterion.expiry => a.expiresAt - b.expiresAt
  | SortCriterion.date => a.uploadedAt - b.uploadedAt

/-- The full comparator passed to `.sort` (line 535): the criterion comparison,
negated when the direction is descending; as a boolean "less or equal". -/
def jsDocLe (c : SortCriterion) (dir : SortDirection) (a b : AttachedDocument) : Bool :=
  decide ((if dir = SortDirection.asc then docCmp c a b else -(docCmp c a b)) ≤ 0)

/-- Stable insertion into a sorted list (keeps the inserted element after no
element it is `le`-below, before the first element it is not `le`-above). -/
def orderedIns (le : α → α → Bool) (a : α) : List α → List α
  | [] => [a]
  | b :: l => if le a b then a :: b :: l else b :: orderedIns le a l

/-- Stable insertion sort; models `Array.prototype.sort` (stable per ES2019)
with a consistent comparator. -/
def insSort (le : α → α → Bool) : List α → List α
  | [] => []
  | a :: l => orderedIns le a (insSort le l)

/-- JS `String.prototype.toLowerCase` (structural model over the character
list, so that it evaluates by kernel reduction). -/
def jsToLower (s : String) : String :=
  ⟨s.data.map Char.toLower⟩

/-- The filtering stage of `sortedDocuments` (source line 529): keep the
documents whose lowercased name contains the lowercased search text. -/
def filteredDocs (s : FormState) : List AttachedDocument :=
  s.documents.filter (fun d => strContains (jsToLower d.name) (jsToLower s.searchTerm))

/-- Source lines 527 to 537, the derived `sortedDocuments` list: filter by the
search text, then stable-sort by the direction-adjusted comparator. -/
def sortedDocuments (s : FormState) : List AttachedDocument :=
  insSort (jsDocLe s.sortCriterion s.sortDirection) (filteredDocs s)

/-- Modelled from the words of the spec (section 4.4): "filter by
case-insensitive substring match ..., then sort by the chosen criterion ...,
then reverse if direction is descending". The sort is the same stable sort,
always run with the ascending comparator; the reversal happens afterwards. -/
def specSortedDocuments (s : FormState) : List AttachedDocument :=
  let base := insSort (fun a b => decide (docCmp s.sortCriterion a b ≤ 0))
    (filteredDocs s)
  if s.sortDirection = SortDirection.asc then base else base.reverse

/-- Source lines 810 to 816, `toggleSort(criterion)`: flip the direction when
the criterion is already active, otherwise switch to it with its default
direction (ascending for `name`, descending otherwise). -/
def toggleSort (c : SortCriterion) (s : FormState) : FormState :=
  if s.sortCriterion = c then
    { s with sortDirection :=
        if s.sortDirection = SortDirection.asc then SortDirection.desc
        else SortDirection.asc }
  else
    { s with sortCriterion := c,
             sortDirection :=
               if c = SortCriterion.name then SortDirection.asc
               else SortDirection.desc }

/-- Source lines 548 to 554, `handleSelectAll`: when the number of selected
ids equals the number of sorted-and-filtered documents, clear the selection;
otherwise select exactly the sorted-and-filtered documents. -/
def handleSelectAll (s : FormState) : FormState :=
  if s.selectedDocTimestamps.length = (sortedDocuments s).length then
    { s with selectedDocTimestamps := [] }
  else
    { s with selectedDocTimestamps :=
        slFromList ((sortedDocuments s).map (fun d => d.uploadedAt)) }

/-- Modelled from the words of the spec (section 4.4): "`selectAll()` toggles
between select every currently-sorted-and-filtered document and clear all
based on whether the full set is already selected": clear exactly when every
filtered document's id is already in the selection. -/
def specSelectAll (s : FormState) : FormState :=
  if (sortedDocuments s).all (fun d => s.selectedDocTimestamps.contains d.uploadedAt) then
    { s with selectedDocTimestamps := [] }
  else
    { s with selectedDocTimestamps :=
        slFromList ((sortedDocuments s).map (fun d => d.uploadedAt)) }

/-- JS `String.prototype.trim`: strip leading and trailing whitespace
(structural model, so that it evaluates by kernel reduction). -/
def jsTrim (s : String) : String :=
  ⟨((s.data.dropWhile Char.isWhitespace).reverse.dropWhile Char.isWhitespace).reverse⟩

/-- Source lines 556 to 587, `applyBulkAnnotation`: no-op when the bulk text
is blank or the selection is empty; otherwise append one fresh pin annotation
at (5, 5) with the bulk text, the current author and one shared timestamp to
every selected document, then clear the bulk text and selection and leave
bulk mode. Each created annotation receives its own environment-supplied id
(`idGen`), all share the single `now`. -/
def applyBulkAnnot (idGen : AttachedDocument → String) (now : ℤ)
    (s : FormState) : FormState :=
  if jsTrim s.bulkAnnotText = "" ∨ s.selectedDocTimestamps.length = 0 then s
  else
    let author := authorOf s
    { s with
      documents := s.documents.map (fun doc =>
        if doc.uploadedAt ∈ s.selectedDocTimestamps then
          { doc with annots := some (annotsOf doc ++
              [⟨idGen doc, AnnotType.pin, 5, 5, none, none, none, none,
                s.bulkAnnotText, author, now⟩]) }
        else doc)
      bulkAnnotText := ""
      selectedDocTimestamps := []
      isApplyingBulk := false
      isBulkMode := false }

/-- Source line 861, `handleZoomIn`: add 0.25, clamped above at 5. -/
def handleZoomIn (s : FormState) : FormState :=
  { s with zoom := min (s.zoom + 0.25) 5 }

/-- Source line 862, `handleZoomOut`: subtract 0.25, clamped below at 0.25. -/
def handleZoomOut (s : FormState) : FormState :=
  { s with zoom := max (s.zoom - 0.25) 0.25 }

/-- C10: with no document previewed, each of the four annotation operations is
a silent no-op: it returns (never throws, being a total function) and leaves
the whole state, hence the document collection, every annotation sequence, the
active selection and the draft buffer, unchanged. -/
theorem noPreview_annotOps_noop (s : FormState) (h : s.previewDoc = none)
    (a : Annot) (i : String) :
    addAnnot a s = s ∧ saveAnnotText s = s ∧ cancelAnnotEdit s = s ∧
      deleteAnnot i s = s := by
  refine ⟨?_, ?_, ?_, ?_⟩
  · simp [addAnnot, h]
  · cases ha : s.activeAnnotId <;> simp [saveAnnotText, h, ha]
  · cases hb : s.activeAnnotId <;> simp [cancelAnnotEdit, h, hb]
  · simp [deleteAnnot, h]

/-- Witness for C10 at a concrete state. -/
theorem noPreview_annotOps_noop_witness :
    addAnnot ⟨"a1", AnnotType.pin, 1, 2, none, none, none, none, "", "User", 7⟩
        initialState = initialState ∧
      saveAnnotText initialState = initialState ∧
      cancelAnnotEdit initialState = initialState ∧
      deleteAnnot "a1" initialState = initialState :=
  noPreview_annotOps_noop initialState rfl
    ⟨"a1", AnnotType.pin, 1, 2, none, none, none, none, "", "User", 7⟩ "a1"

/-- Helper to build a plain document record for concrete examples. -/
def mkDoc (n : String) (up : ℤ) : AttachedDocument :=
  ⟨n, "application/pdf", 1, "", up, up + 1000, some []⟩

/-- Folding a list of `addAnnotation` calls over the state. -/
def addAnnots (anns : List Annot) (s : FormState) : FormState :=
  anns.foldl (fun st a => addAnnot a st) s

/-- After any sequence of `addAnnotation` calls on a state with a previewed
document, the preview still holds a document whose annotation sequence is the
original one extended by exactly the added annotations, in order. -/
theorem addAnnots_previewAnnots (anns : List Annot) :
    ∀ (s : FormState) (pd : AttachedDocument), s.previewDoc = some pd →
      ∃ pd2, (addAnnots anns s).previewDoc = some pd2 ∧
        annotsOf pd2 = annotsOf pd ++ anns := by
  induction anns with
  | nil =>
    intro s pd h
    exact ⟨pd, h, by simp⟩
  | cons a t ih =>
    intro s pd h
    have h1 : (addAnnot a s).previewDoc =
        some { pd with annots := some (annotsOf pd ++ [a]) } := by
      simp [addAnnot, h]
    obtain ⟨pd2, hp2, he2⟩ := ih (addAnnot a s) _ h1
    refine ⟨pd2, ?_, ?_⟩
    · simpa [addAnnots] using hp2
    · rw [he2]
      simp [annotsOf]

/-- C1: starting from a previewed document with an empty annotation sequence,
a sequence of `addAnnotation` calls yields an annotation sequence whose length
equals the number of calls; and when the environment-generated ids of the
calls are pairwise distinct, every annotation id in the resulting sequence is
unique. -/
theorem addAnnots_length_and_unique_ids (s : FormState) (pd : AttachedDocument)
    (hp : s.previewDoc = some pd) (h0 : annotsOf pd = [])
    (anns : List Annot) (hids : (anns.map Annot.id).Nodup) :
    ∃ pd2, (addAnnots anns s).previewDoc = some pd2 ∧
      (annotsOf pd2).length = anns.length ∧
      ((annotsOf pd2).map Annot.id).Nodup := by
  obtain ⟨pd2, h1, h2⟩ := addAnnots_previewAnnots anns s pd hp
  refine ⟨pd2, h1, ?_, ?_⟩
  · rw [h2, h0]
    simp
  · rw [h2, h0]
    simpa using hids

/-- A two-call concrete state for the C1 witness. -/
def c1State : FormState :=
  { initialState with
      documents := [mkDoc "p.pdf" 1]
      previewDoc := some (mkDoc "p.pdf" 1) }

/-- Witness for C1: two concrete `addAnnotation` calls with distinct fresh ids
give a two-element annotation sequence with pairwise distinct ids. -/
theorem addAnnots_length_and_unique_ids_witness :
    ∃ pd2,
      (addAnnots
        [⟨"id1", AnnotType.pin, 1, 2, none, none, none, none, "", "User", 3⟩,
         ⟨"id2", AnnotType.pin, 4, 5, none, none, none, none, "", "User", 6⟩]
        c1State).previewDoc = some pd2 ∧
      (annotsOf pd2).length = 2 ∧
      ((annotsOf pd2).map Annot.id).Nodup :=
  addAnnots_length_and_unique_ids c1State (mkDoc "p.pdf" 1) rfl rfl
    [⟨"id1", AnnotType.pin, 1, 2, none, none, none, none, "", "User", 3⟩,
     ⟨"id2", AnnotType.pin, 4, 5, none, none, none, none, "", "User", 6⟩]
    (by decide)

/-- C7: `toggleSort` flips the direction when the criterion is already active,
otherwise switches criterion and resets the direction to its default
(ascending for name, descending otherwise); two `toggleSort name` calls from
an active name-ascending sort return to ascending, and the sequence date,
expiry, date always ends in descending date order. -/
theorem toggleSort_spec (s : FormState) (c : SortCriterion) :
    (s.sortCriterion = c →
      (toggleSort c s).sortCriterion = c ∧
      (toggleSort c s).sortDirection =
        (if s.sortDirection = SortDirection.asc then SortDirection.desc
         else SortDirection.asc)) ∧
    (s.sortCriterion ≠ c →
      (toggleSort c s).sortCriterion = c ∧
      (toggleSort c s).sortDirection =
        (if c = SortCriterion.name then SortDirection.asc
         else SortDirection.desc)) ∧
    (s.sortCriterion = SortCriterion.name ∧ s.sortDirection = SortDirection.asc →
      (toggleSort SortCriterion.name (toggleSort SortCriterion.name s)).sortCriterion
          = SortCriterion.name ∧
      (toggleSort SortCriterion.name (toggleSort SortCriterion.name s)).sortDirection
          = SortDirection.asc) ∧
    ((toggleSort SortCriterion.date (toggleSort SortCriterion.expiry
        (toggleSort SortCriterion.date s))).sortCriterion = SortCriterion.date ∧
     (toggleSort SortCriterion.date (toggleSort SortCriterion.expiry
        (toggleSort SortCriterion.date s))).sortDirection = SortDirection.desc) := by
  cases c <;> cases h1 : s.sortCriterion <;> cases h2 : s.sortDirection <;>
    simp_all [toggleSort]

/-- Witness for C7 at the initial state (active criterion date, descending):
toggling date flips to ascending, and the date, expiry, date sequence ends at
descending date order. -/
theorem toggleSort_spec_witness :
    ((toggleSort SortCriterion.date initialState).sortCriterion = SortCriterion.date ∧
      (toggleSort SortCriterion.date initialState).sortDirection =
        (if initialState.sortDirection = SortDirection.asc then SortDirection.desc
         else SortDirection.asc)) ∧
    ((toggleSort SortCriterion.date (toggleSort SortCriterion.expiry
        (toggleSort SortCriterion.date initialState))).sortCriterion = SortCriterion.date ∧
     (toggleSort SortCriterion.date (toggleSort SortCriterion.expiry
        (toggleSort SortCriterion.date initialState))).sortDirection = SortDirection.desc) :=
  ⟨(toggleSort_spec initialState SortCriterion.date).1 rfl,
   (toggleSort_spec initialState SortCriterion.date).2.2.2⟩

/-- C9: from a zoom inside [0.25, 5], both zoom steps stay inside [0.25, 5];
the initial zoom is 1; five `zoomIn` steps from the initial state give exactly
2.25 and twenty give exactly 5. -/
theorem zoom_bounds_and_steps (s : FormState)
    (h1 : (0.25 : ℚ) ≤ s.zoom) (h2 : s.zoom ≤ 5) :
    ((0.25 : ℚ) ≤ (handleZoomIn s).zoom ∧ (handleZoomIn s).zoom ≤ 5) ∧
    ((0.25 : ℚ) ≤ (handleZoomOut s).zoom ∧ (handleZoomOut s).zoom ≤ 5) ∧
    initialState.zoom = 1 ∧
    (Nat.iterate handleZoomIn 5 initialState).zoom = 2.25 ∧
    (Nat.iterate handleZoomIn 20 initialState).zoom = 5 := by
  refine ⟨⟨?_, ?_⟩, ⟨?_, ?_⟩, rfl, ?_, ?_⟩
  · exact le_min (by linarith) (by norm_num)
  · exact min_le_right _ _
  · exact le_max_right _ _
  · exact max_le (by linarith) (by norm_num)
  · norm_num [Nat.iterate, handleZoomIn, initialState, min_def]
  · norm_num [Nat.iterate, handleZoomIn, initialState, min_def]

/-- Witness for C9 at the initial state (zoom 1). -/
theorem zoom_bounds_and_steps_witness :
    ((0.25 : ℚ) ≤ (handleZoomIn initialState).zoom ∧
      (handleZoomIn initialState).zoom ≤ 5) ∧
    ((0.25 : ℚ) ≤ (handleZoomOut initialState).zoom ∧
      (handleZoomOut initialState).zoom ≤ 5) ∧
    initialState.zoom = 1 ∧
    (Nat.iterate handleZoomIn 5 initialState).zoom = 2.25 ∧
    (Nat.iterate handleZoomIn 20 initialState).zoom = 5 :=
  zoom_bounds_and_steps initialState (by norm_num [initialState]) (by norm_num [initialState])

/-- The preview record and every collection entry carrying its `uploadedAt`
hold the same annotation sequence. -/
def previewInSync (t : FormState) : Prop :=
  ∃ pd2, t.previewDoc = some pd2 ∧
    ∀ d ∈ t.documents, d.uploadedAt = pd2.uploadedAt → annotsOf d = annotsOf pd2

/-- After replacing every entry keyed like `pd` by `upd`, every entry keyed
like `upd` is `upd` itself (the write propagates to all matching entries). -/
theorem syncAfterMap (docs : List AttachedDocument) (pd upd : AttachedDocument)
    (hup : upd.uploadedAt = pd.uploadedAt) :
    ∀ d ∈ docs.map (fun d => if d.uploadedAt = pd.uploadedAt then upd else d),
      d.uploadedAt = upd.uploadedAt → annotsOf d = annotsOf upd := by
  intro d hd hud
  rcases List.mem_map.1 hd with ⟨d0, _, rfl⟩
  by_cases hc : d0.uploadedAt = pd.uploadedAt
  · simp [hc]
  · rw [if_neg hc] at hud ⊢
    exact absurd (hud.trans hup) hc

/-- C3: with a document previewed, each mutation — `addAnnotation` always,
`saveAnnotationText` whenever it actually fires (a truthy active annotation
id), and `deleteAnnotation` always — leaves the previewed record and every
collection entry with its `uploadedAt` holding the identical annotation
sequence. -/
theorem annotMutations_sync (s : FormState) (pd : AttachedDocument)
    (hp : s.previewDoc = some pd) (a : Annot) (i : String) :
    previewInSync (addAnnot a s) ∧
    ((∃ cid, s.activeAnnotId = some cid ∧ cid ≠ "") →
      previewInSync (saveAnnotText s)) ∧
    previewInSync (deleteAnnot i s) := by
  refine ⟨?_, ?_, ?_⟩
  · refine ⟨{ pd with annots := some (annotsOf pd ++ [a]) }, by simp [addAnnot, hp], ?_⟩
    simpa [addAnnot, hp] using
      syncAfterMap s.documents pd { pd with annots := some (annotsOf pd ++ [a]) } rfl
  · rintro ⟨cid, hcid, hne⟩
    refine ⟨{ pd with annots := some ((annotsOf pd).map
      (fun x => if x.id = cid then { x with text := s.annotText } else x)) }, ?_, ?_⟩
    · simp [saveAnnotText, hp, hcid, hne]
    · simpa [saveAnnotText, hp, hcid, hne] using
        syncAfterMap s.documents pd
          { pd with annots := some ((annotsOf pd).map
              (fun x => if x.id = cid then { x with text := s.annotText } else x)) } rfl
  · refine ⟨{ pd with annots := some ((annotsOf pd).filter (fun x => x.id != i)) }, ?_, ?_⟩
    · simp [deleteAnnot, hp]
      split <;> rfl
    · have base := syncAfterMap s.documents pd
        { pd with annots := some ((annotsOf pd).filter (fun x => x.id != i)) } rfl
      simp only [deleteAnnot, hp]
      split <;> simpa using base

/-- A concrete annotation used in several witnesses. -/
def exAnn : Annot :=
  ⟨"a1", AnnotType.pin, 3, 4, none, none, none, none, "note", "User", 9⟩

/-- A concrete previewed document holding `exAnn`. -/
def exDocA : AttachedDocument :=
  { mkDoc "p.pdf" 1 with annots := some [exAnn] }

/-- A concrete state previewing `exDocA` with `exAnn` active. -/
def c3State : FormState :=
  { initialState with
      documents := [exDocA]
      previewDoc := some exDocA
      activeAnnotId := some "a1"
      annotText := "draft" }

/-- Witness for C3 at a concrete state with an active annotation. -/
theorem annotMutations_sync_witness :
    previewInSync (addAnnot exAnn c3State) ∧
    previewInSync (saveAnnotText c3State) ∧
    previewInSync (deleteAnnot "a1" c3State) :=
  ⟨(annotMutations_sync c3State exDocA rfl exAnn "a1").1,
   (annotMutations_sync c3State exDocA rfl exAnn "a1").2.1 ⟨"a1", rfl, by decide⟩,
   (annotMutations_sync c3State exDocA rfl exAnn "a1").2.2⟩

/-- C4: with a previewed document and a truthy active annotation id that
resolves to an annotation `a`, `cancelAnnotationEdit` deletes `a` exactly when
both its stored text and the draft buffer are empty; otherwise — in particular
whenever `a` has pre-existing saved text, whatever the draft holds — it
removes nothing and writes nothing, only collapsing `a` and clearing the
active selection and the draft. -/
theorem cancelAnnotEdit_spec (s : FormState) (pd : AttachedDocument) (a : Annot)
    (aid : String) (hp : s.previewDoc = some pd) (hid : s.activeAnnotId = some aid)
    (hne : aid ≠ "")
    (hfind : (annotsOf pd).find? (fun x => x.id == aid) = some a) :
    (a.text = "" ∧ s.annotText = "" →
      cancelAnnotEdit s = deleteAnnot aid s ∧
      ∃ pd2, (cancelAnnotEdit s).previewDoc = some pd2 ∧
        annotsOf pd2 = (annotsOf pd).filter (fun x => x.id != aid) ∧
        a ∉ annotsOf pd2) ∧
    (¬(a.text = "" ∧ s.annotText = "") →
      (cancelAnnotEdit s).previewDoc = some pd ∧
      (cancelAnnotEdit s).documents = s.documents ∧
      (cancelAnnotEdit s).activeAnnotId = none ∧
      (cancelAnnotEdit s).annotText = "" ∧
      aid ∈ (cancelAnnotEdit s).collapsedAnnots) := by
  have haid : a.id = aid := by
    have h1 := List.find?_some hfind
    simpa using h1
  constructor
  · rintro ⟨ht, hd⟩
    have heq : cancelAnnotEdit s = deleteAnnot aid s := by
      simp [cancelAnnotEdit, hp, hid, hne, hfind, ht, hd]
    have hfe : annotsOf { pd with annots := some ((annotsOf pd).filter (fun x => x.id != aid)) } = (annotsOf pd).filter (fun x => x.id != aid) := by
      simp [annotsOf]
    refine ⟨heq, { pd with annots := some ((annotsOf pd).filter (fun x => x.id != aid)) }, ?_, hfe, ?_⟩
    · rw [heq]
      simp only [deleteAnnot, hp]
      split <;> rfl
    · rw [hfe]
      intro hmem
      have h2 := (List.mem_filter.1 hmem).2
      simp [haid] at h2
  · intro hcond
    have heq : cancelAnnotEdit s =
        { s with
          collapsedAnnots := ssInsert aid s.collapsedAnnots
          activeAnnotId := none
          annotText := "" } := by
      simp [cancelAnnotEdit, hp, hid, hne, hfind, hcond]
    rw [heq]
    refine ⟨hp, rfl, rfl, rfl, ?_⟩
    by_cases hm : aid ∈ s.collapsedAnnots
    · simp [ssInsert, hm]
    · simp [ssInsert, hm]

/-- A state previewing a document whose annotation has saved text, with a
nonempty draft: cancel must not delete. -/
def c4KeepState : FormState :=
  { initialState with
      documents := [exDocA]
      previewDoc := some exDocA
      activeAnnotId := some "a1"
      annotText := "draft" }

/-- An empty annotation freshly created, with an empty draft: cancel deletes. -/
def exAnnEmpty : Annot :=
  ⟨"a2", AnnotType.pin, 3, 4, none, none, none, none, "", "User", 9⟩

/-- A document holding only the empty annotation. -/
def exDocB : AttachedDocument :=
  { mkDoc "q.pdf" 2 with annots := some [exAnnEmpty] }

/-- A state previewing `exDocB` with the empty annotation active and an empty
draft buffer. -/
def c4DropState : FormState :=
  { initialState with
      documents := [exDocB]
      previewDoc := some exDocB
      activeAnnotId := some "a2"
      annotText := "" }

/-- Witness for C4: cancelling the empty annotation with an empty draft
deletes it; cancelling an annotation with saved text and a nonempty draft
keeps every annotation and only collapses. -/
theorem cancelAnnotEdit_spec_witness :
    (exAnnEmpty.text = "" ∧ c4DropState.annotText = "" →
      cancelAnnotEdit c4DropState = deleteAnnot "a2" c4DropState ∧
      ∃ pd2, (cancelAnnotEdit c4DropState).previewDoc = some pd2 ∧
        annotsOf pd2 = (annotsOf exDocB).filter (fun x => x.id != "a2") ∧
        exAnnEmpty ∉ annotsOf pd2) ∧
    (¬(exAnn.text = "" ∧ c4KeepState.annotText = "") →
      (cancelAnnotEdit c4KeepState).previewDoc = some exDocA ∧
      (cancelAnnotEdit c4KeepState).documents = c4KeepState.documents ∧
      (cancelAnnotEdit c4KeepState).activeAnnotId = none ∧
      (cancelAnnotEdit c4KeepState).annotText = "" ∧
      "a1" ∈ (cancelAnnotEdit c4KeepState).collapsedAnnots) :=
  ⟨(cancelAnnotEdit_spec c4DropState exDocB exAnnEmpty "a2" rfl rfl (by decide) (by decide)).1,
   (cancelAnnotEdit_spec c4KeepState exDocA exAnn "a1" rfl rfl (by decide) (by decide)).2⟩

/-- Zipping a mapped list with its source pairs each image with its preimage. -/
theorem zip_map_self (f : α → β) (l : List α) :
    (l.map f).zip l = l.map (fun a => (f a, a)) := by
  induction l with
  | nil => rfl
  | cons a t ih => simp [ih]

/-- C5: `applyBulkAnnotation` with nonblank text and a nonempty selection
appends exactly one fresh pin annotation at (5, 5) carrying the bulk text, the
current author and the one shared timestamp to exactly the selected documents,
leaves every other document (and every pre-existing annotation) unchanged, and
clears the selection, the bulk text and bulk mode; with blank text or an empty
selection it changes nothing at all. -/
theorem applyBulkAnnot_spec (idGen : AttachedDocument → String) (now : ℤ)
    (s : FormState) :
    ((jsTrim s.bulkAnnotText = "" ∨ s.selectedDocTimestamps = []) →
      applyBulkAnnot idGen now s = s) ∧
    (jsTrim s.bulkAnnotText ≠ "" → s.selectedDocTimestamps ≠ [] →
      (applyBulkAnnot idGen now s).documents.length = s.documents.length ∧
      (∀ p ∈ (applyBulkAnnot idGen now s).documents.zip s.documents,
        (p.2.uploadedAt ∈ s.selectedDocTimestamps →
          p.1 = { p.2 with annots := some (annotsOf p.2 ++
            [⟨idGen p.2, AnnotType.pin, 5, 5, none, none, none, none,
              s.bulkAnnotText, authorOf s, now⟩]) }) ∧
        (p.2.uploadedAt ∉ s.selectedDocTimestamps → p.1 = p.2)) ∧
      (applyBulkAnnot idGen now s).selectedDocTimestamps = [] ∧
      (applyBulkAnnot idGen now s).isBulkMode = false ∧
      (applyBulkAnnot idGen now s).bulkAnnotText = "") := by
  constructor
  · intro h
    have hg : jsTrim s.bulkAnnotText = "" ∨ s.selectedDocTimestamps.length = 0 := by
      rcases h with h | h
      · exact Or.inl h
      · exact Or.inr (by simp [h])
    rw [applyBulkAnnot, if_pos hg]
  · intro ht hsel
    have hguard : ¬(jsTrim s.bulkAnnotText = "" ∨ s.selectedDocTimestamps.length = 0) := by
      simp [ht, List.length_eq_zero, hsel]
    have happ : applyBulkAnnot idGen now s =
        { s with
          documents := s.documents.map (fun doc =>
            if doc.uploadedAt ∈ s.selectedDocTimestamps then
              { doc with annots := some (annotsOf doc ++
                  [⟨idGen doc, AnnotType.pin, 5, 5, none, none, none, none,
                    s.bulkAnnotText, authorOf s, now⟩]) }
            else doc)
          bulkAnnotText := ""
          selectedDocTimestamps := []
          isApplyingBulk := false
          isBulkMode := false } := by
      rw [applyBulkAnnot, if_neg hguard]
    rw [happ]
    refine ⟨by simp, ?_, rfl, rfl, rfl⟩
    intro p hp
    rw [show ({ s with
          documents := s.documents.map (fun doc =>
            if doc.uploadedAt ∈ s.selectedDocTimestamps then
              { doc with annots := some (annotsOf doc ++
                  [⟨idGen doc, AnnotType.pin, 5, 5, none, none, none, none,
                    s.bulkAnnotText, authorOf s, now⟩]) }
            else doc)
          bulkAnnotText := ""
          selectedDocTimestamps := []
          isApplyingBulk := false
          isBulkMode := false } : FormState).documents =
        s.documents.map (fun doc =>
            if doc.uploadedAt ∈ s.selectedDocTimestamps then
              { doc with annots := some (annotsOf doc ++
                  [⟨idGen doc, AnnotType.pin, 5, 5, none, none, none, none,
                    s.bulkAnnotText, authorOf s, now⟩]) }
            else doc) from rfl, zip_map_self] at hp
    rcases List.mem_map.1 hp with ⟨d, _, rfl⟩
    constructor
    · intro hmem
      simp [hmem]
    · intro hmem
      simp [hmem]

/-- A four-document state with two selected documents and bulk text, matching
the spec scenario. -/
def c5State : FormState :=
  { initialState with
      documents := [mkDoc "a.pdf" 1, mkDoc "b.pdf" 2, mkDoc "c.pdf" 3, mkDoc "d.pdf" 4]
      selectedDocTimestamps := [2, 4]
      bulkAnnotText := "Review urgently"
      isBulkMode := true }

/-- One fresh id per document for the C5 witness. -/
def c5IdGen (d : AttachedDocument) : String :=
  "bulk-" ++ d.name

/-- Witness for C5: applying the bulk annotation to 2 of 4 documents. -/
theorem applyBulkAnnot_spec_witness :
    (jsTrim c5State.bulkAnnotText ≠ "" ∧ c5State.selectedDocTimestamps ≠ []) ∧
    (applyBulkAnnot c5IdGen 77 c5State).documents.length = c5State.documents.length ∧
    (∀ p ∈ (applyBulkAnnot c5IdGen 77 c5State).documents.zip c5State.documents,
      (p.2.uploadedAt ∈ c5State.selectedDocTimestamps →
        p.1 = { p.2 with annots := some (annotsOf p.2 ++
          [⟨c5IdGen p.2, AnnotType.pin, 5, 5, none, none, none, none,
            c5State.bulkAnnotText, authorOf c5State, 77⟩]) }) ∧
      (p.2.uploadedAt ∉ c5State.selectedDocTimestamps → p.1 = p.2)) ∧
    (applyBulkAnnot c5IdGen 77 c5State).selectedDocTimestamps = [] ∧
    (applyBulkAnnot c5IdGen 77 c5State).isBulkMode = false ∧
    (applyBulkAnnot c5IdGen 77 c5State).bulkAnnotText = "" :=
  ⟨⟨by decide, by decide⟩,
   (applyBulkAnnot_spec c5IdGen 77 c5State).2 (by decide) (by decide)⟩

/-- Folding JS `Set.add` over a duplicate-free list starting from a disjoint
accumulator appends the list. -/
theorem slFromList_aux (xs : List ℤ) :
    ∀ acc, (∀ x ∈ xs, x ∉ acc) → xs.Nodup →
      xs.foldl (fun a x => slInsert x a) acc = acc ++ xs := by
  induction xs with
  | nil => intro acc _ _; simp
  | cons x t ih =>
    intro acc hdisj hnd
    have hx : x ∉ acc := hdisj x (by simp)
    have h1 : slInsert x acc = acc ++ [x] := by simp [slInsert, hx]
    have h2 : ∀ y ∈ t, y ∉ acc ++ [x] := by
      intro y hy
      have hya : y ∉ acc := hdisj y (by simp [hy])
      have hyx : y ≠ x := by
        intro he
        exact (List.nodup_cons.1 hnd).1 (he ▸ hy)
      simp [hya, hyx]
    calc (x :: t).foldl (fun a x => slInsert x a) acc
        = t.foldl (fun a x => slInsert x a) (slInsert x acc) := by simp
      _ = (acc ++ [x]) ++ t := by rw [h1]; exact ih (acc ++ [x]) h2 (List.nodup_cons.1 hnd).2
      _ = acc ++ x :: t := by simp

/-- `new Set(xs)` on a duplicate-free list of numbers keeps it unchanged. -/
theorem slFromList_nodup (xs : List ℤ) (h : xs.Nodup) : slFromList xs = xs := by
  simpa [slFromList] using slFromList_aux xs [] (by simp) h

/-- C8 (amended): `handleSelectAll` clears the selection exactly when the
COUNT of selected ids equals the count of sorted-and-filtered documents (not
when that exact set is selected), and otherwise — whatever ids were selected
before — replaces the selection by exactly the sorted-and-filtered documents
(all N of them when their ids are distinct); in particular, with nothing
selected and N filtered documents it selects all N, and with a selection of
matching size — e.g. exactly all N — it clears to zero. -/
theorem handleSelectAll_spec (s : FormState) :
    (s.selectedDocTimestamps.length = (sortedDocuments s).length →
      (handleSelectAll s).selectedDocTimestamps = []) ∧
    (s.selectedDocTimestamps.length ≠ (sortedDocuments s).length →
      (handleSelectAll s).selectedDocTimestamps =
        slFromList ((sortedDocuments s).map (fun d => d.uploadedAt)) ∧
      (((sortedDocuments s).map (fun d => d.uploadedAt)).Nodup →
        (handleSelectAll s).selectedDocTimestamps.length =
          (sortedDocuments s).length)) := by
  constructor
  · intro h
    simp [handleSelectAll, h]
  · intro hlen
    constructor
    · simp [handleSelectAll, hlen]
    · intro hnd
      simp [handleSelectAll, hlen, slFromList_nodup _ hnd]

/-- A two-document state with exactly the two filtered documents selected. -/
def c8AllState : FormState :=
  { initialState with
      documents := [mkDoc "a.pdf" 1, mkDoc "b.pdf" 2]
      selectedDocTimestamps := [1, 2] }

/-- A two-document state with nothing selected. -/
def c8NoneState : FormState :=
  { initialState with
      documents := [mkDoc "a.pdf" 1, mkDoc "b.pdf" 2] }

/-- Witness for C8, exercising both branches concretely: with exactly all 2 of
2 filtered documents selected the call clears the selection, and with 0 of 2
selected it selects exactly the 2 filtered documents. -/
theorem handleSelectAll_spec_witness :
    (handleSelectAll c8AllState).selectedDocTimestamps = [] ∧
    (handleSelectAll c8NoneState).selectedDocTimestamps =
      slFromList ((sortedDocuments c8NoneState).map (fun d => d.uploadedAt)) ∧
    (handleSelectAll c8NoneState).selectedDocTimestamps.length =
      (sortedDocuments c8NoneState).length :=
  ⟨(handleSelectAll_spec c8AllState).1 (by decide),
   ((handleSelectAll_spec c8NoneState).2 (by decide)).1,
   ((handleSelectAll_spec c8NoneState).2 (by decide)).2 (by decide)⟩

/-- The C8 counterexample state: two documents "a.pdf" (uploadedAt 1) and
"b.pdf" (uploadedAt 2), search text "a" filtering the list down to just
"a.pdf", while the selection holds only the id of the filtered-out "b.pdf". -/
def c8State : FormState :=
  { initialState with
      documents := [mkDoc "a.pdf" 1, mkDoc "b.pdf" 2]
      searchTerm := "a"
      selectedDocTimestamps := [2] }

/-- C8 counterexample: the full set of filtered documents is NOT selected
(id 1 is missing), yet `handleSelectAll` clears the selection — because the
code only compares the COUNT of selected ids with the count of filtered
documents — whereas the claimed set-based toggle would select all. -/
theorem handleSelectAll_counterexample :
    (handleSelectAll c8State).selectedDocTimestamps = [] ∧
    (specSelectAll c8State).selectedDocTimestamps = [1] ∧
    ¬ (∀ d ∈ sortedDocuments c8State,
        d.uploadedAt ∈ c8State.selectedDocTimestamps) := by
  refine ⟨by decide, by decide, ?_⟩
  intro h
  have h1 := h (mkDoc "a.pdf" 1) (by decide)
  revert h1
  decide

/-- Ordered insertion permutes: inserting `a` gives a permutation of `a :: l`. -/
theorem orderedIns_perm (le : α → α → Bool) (a : α) (l : List α) :
    List.Perm (orderedIns le a l) (a :: l) := by
  induction l with
  | nil => simp [orderedIns]
  | cons b t ih =>
    by_cases h : le a b
    · simp [orderedIns, h]
    · rw [orderedIns, if_neg h]
      exact (ih.cons b).trans (List.Perm.swap a b t)

/-- Insertion sort permutes its input. -/
theorem insSort_perm (le : α → α → Bool) (l : List α) :
    List.Perm (insSort le l) l := by
  induction l with
  | nil => simp [insSort]
  | cons a t ih =>
    exact (orderedIns_perm le a (insSort le t)).trans (ih.cons a)

/-- Ordered insertion preserves pairwise sortedness, given a total and
transitive boolean relation. -/
theorem orderedIns_pairwise (le : α → α → Bool)
    (htot : ∀ a b, le a b = true ∨ le b a = true)
    (htrans : ∀ a b c, le a b = true → le b c = true → le a c = true)
    (a : α) (l : List α) (hl : l.Pairwise (fun x y => le x y = true)) :
    (orderedIns le a l).Pairwise (fun x y => le x y = true) := by
  induction l with
  | nil => simp [orderedIns]
  | cons b t ih =>
    rcases List.pairwise_cons.1 hl with ⟨hb, ht⟩
    by_cases h : le a b
    · rw [orderedIns, if_pos h]
      refine List.pairwise_cons.2 ⟨?_, hl⟩
      intro x hx
      rcases List.mem_cons.1 hx with rfl | hx2
      · exact h
      · exact htrans a b x h (hb x hx2)
    · rw [orderedIns, if_neg h]
      have hba : le b a = true := (htot a b).resolve_left (by simpa using h)
      refine List.pairwise_cons.2 ⟨?_, ih ht⟩
      intro x hx
      rcases List.mem_cons.1 ((orderedIns_perm le a t).subset hx) with rfl | hx2
      · exact hba
      · exact hb x hx2

/-- Insertion sort sorts, given a total and transitive boolean relation. -/
theorem insSort_pairwise (le : α → α → Bool)
    (htot : ∀ a b, le a b = true ∨ le b a = true)
    (htrans : ∀ a b c, le a b = true → le b c = true → le a c = true)
    (l : List α) :
    (insSort le l).Pairwise (fun x y => le x y = true) := by
  induction l with
  | nil => simp [insSort]
  | cons a t ih => exact orderedIns_pairwise le htot htrans a (insSort le t) ih

/-- Two sorted permutations of each other are equal, when the sorting relation
is antisymmetric on the elements involved. -/
theorem perm_pairwise_unique {R : α → α → Prop} :
    ∀ {l₁ l₂ : List α}, List.Perm l₁ l₂ → l₁.Pairwise R → l₂.Pairwise R →
      (∀ a ∈ l₁, ∀ b ∈ l₁, R a b → R b a → a = b) → l₁ = l₂ := by
  intro l₁
  induction l₁ with
  | nil =>
    intro l₂ hp _ _ _
    exact hp.nil_eq
  | cons a t ih =>
    intro l₂ hp h₁ h₂ hanti
    cases l₂ with
    | nil => exact absurd hp.symm.nil_eq (by simp)
    | cons b u =>
      have hab : a = b := by
        rcases List.mem_cons.1 (hp.subset (List.mem_cons_self a t)) with h | ha2
        · exact h
        · rcases List.mem_cons.1 (hp.symm.subset (List.mem_cons_self b u)) with h | hb1
          · exact h.symm
          · have hRab : R a b := (List.pairwise_cons.1 h₁).1 b hb1
            have hRba : R b a := (List.pairwise_cons.1 h₂).1 a ha2
            exact hanti a (List.mem_cons_self a t) b (List.mem_cons.2 (Or.inr hb1)) hRab hRba
      subst hab
      have htu : List.Perm t u := hp.cons_inv
      have hanti2 : ∀ x ∈ t, ∀ y ∈ t, R x y → R y x → x = y := by
        intro x hx y hy
        exact hanti x (List.mem_cons.2 (Or.inr hx)) y (List.mem_cons.2 (Or.inr hy))
      rw [ih htu (List.pairwise_cons.1 h₁).2 (List.pairwise_cons.1 h₂).2 hanti2]

/-- Sorting by the swapped relation equals reversing the sorted list, for a
total, transitive relation antisymmetric on the elements of the list. -/
theorem insSort_swap_eq_reverse (le : α → α → Bool)
    (htot : ∀ a b, le a b = true ∨ le b a = true)
    (htrans : ∀ a b c, le a b = true → le b c = true → le a c = true)
    (l : List α)
    (hanti : ∀ a ∈ l, ∀ b ∈ l, le a b = true → le b a = true → a = b) :
    insSort (fun a b => le b a) l = (insSort le l).reverse := by
  have hperm : List.Perm (insSort (fun a b => le b a) l) ((insSort le l).reverse) :=
    (insSort_perm _ l).trans ((insSort_perm le l).symm.trans (List.reverse_perm _).symm)
  have hs1 : (insSort (fun a b => le b a) l).Pairwise (fun x y => le y x = true) :=
    insSort_pairwise (fun a b => le b a)
      (fun a b => (htot b a))
      (fun a b c h1 h2 => htrans c b a h2 h1) l
  have hs2 : ((insSort le l).reverse).Pairwise (fun x y => le y x = true) :=
    (List.pairwise_reverse).2 (insSort_pairwise le htot htrans l)
  refine perm_pairwise_unique hperm hs1 hs2 ?_
  intro a ha b hb h1 h2
  have hal : a ∈ l := (insSort_perm _ l).subset ha
  have hbl : b ∈ l := (insSort_perm _ l).subset hb
  exact hanti a hal b hbl h2 h1

/-- Swapping the arguments of `lexCmp` negates it. -/
theorem lexCmp_swap : ∀ (xs ys : List Char), lexCmp ys xs = -(lexCmp xs ys) := by
  intro xs
  induction xs with
  | nil =>
    intro ys
    cases ys <;> simp [lexCmp]
  | cons a as ih =>
    intro ys
    cases ys with
    | nil => simp [lexCmp]
    | cons b bs =>
      rcases lt_trichotomy a b with hab | hab | hab
      · simp [lexCmp, hab, lt_asymm hab]
      · subst hab
        simp [lexCmp, lt_irrefl, ih bs]
      · simp [lexCmp, hab, lt_asymm hab]

/-- Transitivity of the nonpositive side of `lexCmp`. -/
theorem lexCmp_nonpos_trans :
    ∀ (xs ys zs : List Char), lexCmp xs ys ≤ 0 → lexCmp ys zs ≤ 0 →
      lexCmp xs zs ≤ 0 := by
  intro xs
  induction xs with
  | nil =>
    intro ys zs h1 h2
    cases zs <;> simp [lexCmp]
  | cons a as ih =>
    intro ys zs h1 h2
    cases ys with
    | nil => simp [lexCmp] at h1
    | cons b bs =>
      cases zs with
      | nil => simp [lexCmp] at h2
      | cons c cs =>
        rcases lt_trichotomy a b with hab | hab | hab
        · rcases lt_trichotomy b c with hbc | hbc | hbc
          · simp [lexCmp, lt_trans hab hbc]
          · subst hbc
            simp [lexCmp, hab]
          · simp only [lexCmp, if_neg (lt_asymm hbc), if_pos hbc] at h2
            norm_num at h2
        · subst hab
          simp only [lexCmp, if_neg (lt_irrefl a)] at h1
          rcases lt_trichotomy a c with hac | hac | hac
          · simp [lexCmp, hac]
          · subst hac
            simp only [lexCmp, if_neg (lt_irrefl a)] at h2 ⊢
            exact ih bs cs h1 h2
          · simp only [lexCmp, if_neg (lt_asymm hac), if_pos hac] at h2
            norm_num at h2
        · simp only [lexCmp, if_neg (lt_asymm hab), if_pos hab] at h1
          norm_num at h1

/-- Swapping the arguments of a criterion comparison negates it. -/
theorem docCmp_swap (c : SortCriterion) (x y : AttachedDocument) :
    docCmp c y x = -(docCmp c x y) := by
  cases c
  · exact lexCmp_swap x.name.data y.name.data
  · simp [docCmp]
  · simp [docCmp]

/-- Transitivity of the nonpositive side of a criterion comparison. -/
theorem docCmp_nonpos_trans (c : SortCriterion) (x y z : AttachedDocument)
    (h1 : docCmp c x y ≤ 0) (h2 : docCmp c y z ≤ 0) : docCmp c x z ≤ 0 := by
  cases c
  · exact lexCmp_nonpos_trans x.name.data y.name.data z.name.data h1 h2
  · simp [docCmp] at h1 h2 ⊢
    omega
  · simp [docCmp] at h1 h2 ⊢
    omega

/-- Totality of the nonpositive side of a criterion comparison. -/
theorem docCmp_total (c : SortCriterion) (x y : AttachedDocument) :
    docCmp c x y ≤ 0 ∨ docCmp c y x ≤ 0 := by
  rcases le_or_lt (docCmp c x y) 0 with h | h
  · exact Or.inl h
  · right
    rw [docCmp_swap]
    omega

/-- The comparator with ascending direction is the plain criterion order. -/
theorem jsDocLe_asc (c : SortCriterion) :
    jsDocLe c SortDirection.asc = fun a b => decide (docCmp c a b ≤ 0) := by
  funext a b
  simp [jsDocLe]

/-- The comparator with descending direction is the swapped criterion order. -/
theorem jsDocLe_desc (c : SortCriterion) :
    jsDocLe c SortDirection.desc = fun a b => decide (docCmp c b a ≤ 0) := by
  funext a b
  simp only [jsDocLe, if_neg (by simp : ¬ SortDirection.desc = SortDirection.asc)]
  rw [docCmp_swap c a b]

/-- The three-document scenario state, sorted by name ascending. -/
def c6NameAscState : FormState :=
  { initialState with
      documents := [mkDoc "b.pdf" 100, mkDoc "a.pdf" 300, mkDoc "c.pdf" 200]
      sortCriterion := SortCriterion.name
      sortDirection := SortDirection.asc }

/-- The three-document scenario state, sorted by date descending. -/
def c6DateDescState : FormState :=
  { initialState with
      documents := [mkDoc "b.pdf" 100, mkDoc "a.pdf" 300, mkDoc "c.pdf" 200]
      sortCriterion := SortCriterion.date
      sortDirection := SortDirection.desc }

/-- C6 (amended): the derived `sortedDocuments` stable-sorts the filtered list
by the comparator with the comparison negated when descending, which keeps
tied documents in collection order instead of reversing them; whenever the
sort keys are pairwise distinct on the filtered documents — as in both
scenarios — this coincides with filter, sort ascending, then reverse. The
name-ascending scenario yields a.pdf, b.pdf, c.pdf and the date-descending
scenario yields uploadedAt order 300, 200, 100. -/
theorem sortedDocuments_spec (s : FormState)
    (hk : (filteredDocs s).Pairwise
      (fun a b => docCmp s.sortCriterion a b ≠ 0)) :
    sortedDocuments s = specSortedDocuments s ∧
    (sortedDocuments c6NameAscState).map (fun d => d.name) =
      ["a.pdf", "b.pdf", "c.pdf"] ∧
    (sortedDocuments c6DateDescState).map (fun d => d.uploadedAt) =
      [300, 200, 100] := by
  refine ⟨?_, by decide, by decide⟩
  cases hdir : s.sortDirection
  · simp [sortedDocuments, specSortedDocuments, hdir, jsDocLe_asc]
  · simp only [sortedDocuments, specSortedDocuments, hdir, jsDocLe_desc,
      if_neg (by simp : ¬ SortDirection.desc = SortDirection.asc)]
    apply insSort_swap_eq_reverse
      (fun a b => decide (docCmp s.sortCriterion a b ≤ 0))
    · intro a b
      rcases docCmp_total s.sortCriterion a b with h | h
      · exact Or.inl (decide_eq_true h)
      · exact Or.inr (decide_eq_true h)
    · intro a b c h1 h2
      exact decide_eq_true
        (docCmp_nonpos_trans s.sortCriterion a b c
          (of_decide_eq_true h1) (of_decide_eq_true h2))
    · intro a ha b hb h1 h2
      have g1 := of_decide_eq_true h1
      have g2 := of_decide_eq_true h2
      rw [docCmp_swap s.sortCriterion a b] at g2
      have h0 : docCmp s.sortCriterion a b = 0 := by omega
      by_cases hab : a = b
      · exact hab
      · have hsym : Symmetric
            (fun x y : AttachedDocument => docCmp s.sortCriterion x y ≠ 0) := by
          intro x y hxy
          rw [docCmp_swap s.sortCriterion x y]
          omega
        exact absurd h0 (hk.forall hsym ha hb hab)

/-- Witness for C6 at the name-ascending scenario state, whose sort keys are
pairwise distinct. -/
theorem sortedDocuments_spec_witness :
    sortedDocuments c6NameAscState = specSortedDocuments c6NameAscState ∧
    (sortedDocuments c6NameAscState).map (fun d => d.name) =
      ["a.pdf", "b.pdf", "c.pdf"] ∧
    (sortedDocuments c6DateDescState).map (fun d => d.uploadedAt) =
      [300, 200, 100] :=
  sortedDocuments_spec c6NameAscState (by decide)

/-- The C6 counterexample state: two distinct documents sharing the name
"x.pdf", sorted by name descending. -/
def c6TieState : FormState :=
  { initialState with
      documents := [mkDoc "x.pdf" 1, mkDoc "x.pdf" 2]
      sortCriterion := SortCriterion.name
      sortDirection := SortDirection.desc }

/-- C6 counterexample: with two documents tied on the sort key, the code's
stable sort under a negated comparator keeps them in collection order, while
the claimed filter-sort-reverse pipeline reverses them, so the lists differ. -/
theorem sortedDocuments_counterexample :
    sortedDocuments c6TieState ≠ specSortedDocuments c6TieState := by
  decide

/-- The live-drawing invariant during a rect drag after at least one
pointer-move: still drawing with the rect tool on the same previewed document,
not pan-dragging, and the preview box carries present, non-negative width and
height. -/
def RectLive (pd : AttachedDocument) (t : FormState) : Prop :=
  t.isDrawing = true ∧ t.activeTool = some AnnotType.rect ∧
  t.isDraggingImage = false ∧ t.previewDoc = some pd ∧
  ∃ cd w h, t.currentDraw = some cd ∧ cd.w = some w ∧ cd.h = some h ∧
    0 ≤ w ∧ 0 ≤ h

/-- One pointer-move over the mounted document element, while drawing a rect,
(re)establishes the live invariant: the preview is normalized to a min corner
with absolute-value width and height. -/
theorem move_establishes_rectLive (pd : AttachedDocument) (t : FormState)
    (e : MouseEvt) (r : DOMRect)
    (h1 : t.isDrawing = true) (h2 : t.activeTool = some AnnotType.rect)
    (h3 : t.isDraggingImage = false) (h4 : t.previewDoc = some pd) :
    RectLive pd (handleMouseMoveOnDoc e (some r) t) := by
  refine ⟨?_, ?_, ?_, ?_, ?_⟩
  · simp [handleMouseMoveOnDoc, h1, h2, h3]
  · simp [handleMouseMoveOnDoc, h1, h2, h3]
  · simp [handleMouseMoveOnDoc, h1, h2, h3]
  · simp [handleMouseMoveOnDoc, h1, h2, h3, h4]
  · have key : (handleMouseMoveOnDoc e (some r) t).currentDraw =
        some ⟨min t.drawStart.1 (pctCoords e r).1,
          min t.drawStart.2 (pctCoords e r).2,
          some (abs ((pctCoords e r).1 - t.drawStart.1)),
          some (abs ((pctCoords e r).2 - t.drawStart.2)), none, none⟩ := by
      simp [handleMouseMoveOnDoc, h1, h2, h3]
    exact ⟨_, _, _, key, rfl, rfl, abs_nonneg _, abs_nonneg _⟩

/-- Folding further mounted pointer-moves preserves the live rect invariant. -/
theorem foldMoves_rectLive (pd : AttachedDocument)
    (moves : List (MouseEvt × DOMRect)) :
    ∀ t, RectLive pd t →
      RectLive pd (moves.foldl
        (fun st mv => handleMouseMoveOnDoc mv.1 (some mv.2) st) t) := by
  induction moves with
  | nil => intro t ht; simpa using ht
  | cons m rest ih =>
    intro t ht
    rcases ht with ⟨h1, h2, h3, h4, _⟩
    simpa using ih (handleMouseMoveOnDoc m.1 (some m.2) t)
      (move_establishes_rectLive pd t m.1 m.2 h1 h2 h3 h4)

/-- C2 (amended): a rect draw consisting of pointer-down on the mounted
document element, at least one mounted pointer-move, and pointer-up appends
exactly one annotation to the previewed document; it is a rect whose width and
height are present and non-negative (the normalization takes min corners and
absolute differences). Without any pointer-move the annotation is instead
created with absent width and height (see the counterexample). -/
theorem rectDraw_widthHeight_nonneg (s : FormState) (pd : AttachedDocument)
    (hp : s.previewDoc = some pd) (htool : s.activeTool = some AnnotType.rect)
    (hdrag : s.isDraggingImage = false)
    (e0 : MouseEvt) (r0 : DOMRect) (id0 id1 : String) (t0 t1 : ℤ)
    (m : MouseEvt × DOMRect) (moves : List (MouseEvt × DOMRect)) :
    ∃ pd2 ann,
      (handleMouseUpOnDoc id1 t1
        ((m :: moves).foldl (fun st mv => handleMouseMoveOnDoc mv.1 (some mv.2) st)
          (handleMouseDownOnDoc e0 (some r0) id0 t0 s))).previewDoc = some pd2 ∧
      annotsOf pd2 = annotsOf pd ++ [ann] ∧ ann.type = AnnotType.rect ∧
      ∃ w h, ann.width = some w ∧ ann.height = some h ∧ 0 ≤ w ∧ 0 ≤ h := by
  have hd1 : (handleMouseDownOnDoc e0 (some r0) id0 t0 s).isDrawing = true := by
    simp [handleMouseDownOnDoc, htool]
  have hd2 : (handleMouseDownOnDoc e0 (some r0) id0 t0 s).activeTool =
      some AnnotType.rect := by
    simp [handleMouseDownOnDoc, htool]
  have hd3 : (handleMouseDownOnDoc e0 (some r0) id0 t0 s).isDraggingImage = false := by
    simp [handleMouseDownOnDoc, htool, hdrag]
  have hd4 : (handleMouseDownOnDoc e0 (some r0) id0 t0 s).previewDoc = some pd := by
    simp [handleMouseDownOnDoc, htool, hp]
  have hlive : RectLive pd
      ((m :: moves).foldl (fun st mv => handleMouseMoveOnDoc mv.1 (some mv.2) st)
        (handleMouseDownOnDoc e0 (some r0) id0 t0 s)) := by
    have hstep : (m :: moves).foldl
        (fun st mv => handleMouseMoveOnDoc mv.1 (some mv.2) st)
        (handleMouseDownOnDoc e0 (some r0) id0 t0 s) =
        moves.foldl (fun st mv => handleMouseMoveOnDoc mv.1 (some mv.2) st)
          (handleMouseMoveOnDoc m.1 (some m.2)
            (handleMouseDownOnDoc e0 (some r0) id0 t0 s)) := by
      simp
    rw [hstep]
    exact foldMoves_rectLive pd moves _
      (move_establishes_rectLive pd _ m.1 m.2 hd1 hd2 hd3 hd4)
  set s2 := (m :: moves).foldl
    (fun st mv => handleMouseMoveOnDoc mv.1 (some mv.2) st)
    (handleMouseDownOnDoc e0 (some r0) id0 t0 s) with hs2
  rcases hlive with ⟨h1, h2, h3, h4, cd, w, h, hcd, hw, hh, hw0, hh0⟩
  refine ⟨{ pd with annots := some (annotsOf pd ++ [⟨id1, AnnotType.rect, cd.x, cd.y, cd.w, cd.h, cd.ex, cd.ey, "", authorOf s2, t1⟩]) }, ⟨id1, AnnotType.rect, cd.x, cd.y, cd.w, cd.h, cd.ex, cd.ey, "", authorOf s2, t1⟩, ?_, by simp [annotsOf], rfl, w, h, hw, hh, hw0, hh0⟩
  simp only [handleMouseUpOnDoc, h1, h2, h3, hcd]
  simp [addAnnot, h4]

/-- The C2 counterexample state: rect tool armed on a previewed document. -/
def c2State : FormState :=
  { initialState with
      documents := [mkDoc "p.pdf" 1]
      previewDoc := some (mkDoc "p.pdf" 1)
      activeTool := some AnnotType.rect }

/-- C2 counterexample: pointer-down at (10, 20) with the rect tool followed
immediately by pointer-up (no pointer-move) creates a rect annotation whose
width and height are ABSENT, not present and non-negative. -/
theorem rectDraw_zeroMove_counterexample :
    ((handleMouseUpOnDoc "i2" 5
        (handleMouseDownOnDoc ⟨10, 20⟩ (some ⟨0, 0, 100, 100⟩) "i1" 4
          c2State)).previewDoc.map
      (fun d => (annotsOf d).map (fun a => (a.type, a.width, a.height)))) =
    some [(AnnotType.rect, none, none)] := by
  decide

/-- Witness for C2 (amended) at a concrete one-move rect draw. -/
theorem rectDraw_widthHeight_nonneg_witness :
    ∃ pd2 ann,
      (handleMouseUpOnDoc "i2" 5
        (((⟨3, 4⟩, ⟨0, 0, 100, 100⟩) :: ([] : List (MouseEvt × DOMRect))).foldl
          (fun st mv => handleMouseMoveOnDoc mv.1 (some mv.2) st)
          (handleMouseDownOnDoc ⟨10, 20⟩ (some ⟨0, 0, 100, 100⟩) "i1" 4
            c2State))).previewDoc = some pd2 ∧
      annotsOf pd2 = annotsOf (mkDoc "p.pdf" 1) ++ [ann] ∧
      ann.type = AnnotType.rect ∧
      ∃ w h, ann.width = some w ∧ ann.height = some h ∧ 0 ≤ w ∧ 0 ≤ h :=
  rectDraw_widthHeight_nonneg c2State (mkDoc "p.pdf" 1) rfl rfl rfl
    ⟨10, 20⟩ ⟨0, 0, 100, 100⟩ "i1" "i2" 4 5 (⟨3, 4⟩, ⟨0, 0, 100, 100⟩) []
